import Mathlib

/-!
Shallow embedding of `include/eos/morphablemodel/PcaModel.hpp` from the eos
3D morphable model library.

Floating-point (`float`) arithmetic is modelled over the real numbers `ℝ`
(the spec's claims are stated "up to floating-point rounding", so real
arithmetic is the reference semantics).  A `cv::Mat` of floats is modelled
as a structure carrying its row count, column count and an entry function;
single-index element access `at<float>(i)` is row-major flattened access,
matching OpenCV's semantics for continuous matrices.  Fallible OpenCV
operations (matrix product and sum, which assert on dimension mismatch and
throw `cv::Exception`) return `Option`.
-/

namespace Eos

noncomputable section

/-- Model of a `cv::Mat` holding `float` entries: row count, column count,
and the entry at each (row, column) position. -/
structure Mat where
  rows : Nat
  cols : Nat
  entry : Nat → Nat → ℝ

attribute [ext] Mat

/-- Single-index element access `M.at<float>(i)`: row-major flattened index,
as OpenCV resolves a one-argument `at` on a continuous matrix.  For an
`n×1` column vector this is `entry i 0`; for a `1×n` row vector, `entry 0 i`. -/
def Mat.atIdx (M : Mat) (i : Nat) : ℝ := M.entry (i / M.cols) (i % M.cols)

/-- Model of `cv::Mat::clone()`: a fresh matrix with the same contents. -/
def Mat.clone (M : Mat) : Mat := ⟨M.rows, M.cols, M.entry⟩

/-- Model of `cv::Mat::rowRange(a, b)`: the view of rows `[a, b)`. -/
def Mat.rowRange (M : Mat) (a b : Nat) : Mat :=
  ⟨b - a, M.cols, fun r c => M.entry (a + r) c⟩

/-- Model of the `cv::Mat` matrix product `A * B` (`cv::gemm`): defined only
when the inner dimensions agree (`A.cols = B.rows`); OpenCV raises a
dimensional-mismatch error (`cv::Exception`) otherwise, modelled as `none`. -/
def Mat.mul (A B : Mat) : Option Mat :=
  if A.cols = B.rows then
    some ⟨A.rows, B.cols, fun r c => ∑ k ∈ Finset.range A.cols, A.entry r k * B.entry k c⟩
  else none

/-- Model of the `cv::Mat` matrix sum `A + B`: defined only when the shapes
agree; OpenCV raises an error otherwise, modelled as `none`. -/
def Mat.add (A B : Mat) : Option Mat :=
  if A.rows = B.rows ∧ A.cols = B.cols then
    some ⟨A.rows, A.cols, fun r c => A.entry r c + B.entry r c⟩
  else none

/-- Model of the `cv::Mat(std::vector<float>)` constructor: an `N×1`
column vector holding the list's elements. -/
def listToColMat (l : List ℝ) : Mat := ⟨l.length, 1, fun r _ => l.getD r 0⟩

/-- Extensional equality of matrices: same shape and same entries at every
valid index.  (Out-of-range values of the `entry` function are not part of
the matrix's observable content.) -/
def Mat.EqOn (A B : Mat) : Prop :=
  A.rows = B.rows ∧ A.cols = B.cols ∧
    ∀ r < A.rows, ∀ c < A.cols, A.entry r c = B.entry r c

/-- The `sqrtOfEigenvalues` computation inside `normalisePcaBasis`: a clone
of `eigenvalues` whose flattened entries `0, …, eigenvalues.rows - 1` are
replaced by their square roots (the loop runs `for i in [0, eigenvalues.rows)`
and writes `at<float>(i)`, i.e. the first `rows` entries in row-major order;
the remaining entries keep their original values). -/
def Mat.sqrtFirstRows (E : Mat) : Mat :=
  ⟨E.rows, E.cols, fun r c =>
    if r * E.cols + c < E.rows then Real.sqrt (E.entry r c) else E.entry r c⟩

/-- The `oneOverSqrtOfEigenvalues` computation inside `unnormalisePcaBasis`:
a clone of `eigenvalues` whose flattened entries `0, …, eigenvalues.rows - 1`
are replaced by their reciprocal square roots. -/
def Mat.recipSqrtFirstRows (E : Mat) : Mat :=
  ⟨E.rows, E.cols, fun r c =>
    if r * E.cols + c < E.rows then 1 / Real.sqrt (E.entry r c) else E.entry r c⟩

/-- Free function `normalisePcaBasis(unnormalisedBasis, eigenvalues)`:
column `j` of the basis is multiplied by `sqrtOfEigenvalues.at<float>(j)`. -/
def normalisePcaBasis (unnormalisedBasis eigenvalues : Mat) : Mat :=
  ⟨unnormalisedBasis.rows, unnormalisedBasis.cols, fun r c =>
    unnormalisedBasis.entry r c * eigenvalues.sqrtFirstRows.atIdx c⟩

/-- Free function `unnormalisePcaBasis(normalisedBasis, eigenvalues)`:
column `j` of the basis is multiplied by `oneOverSqrtOfEigenvalues.at<float>(j)`. -/
def unnormalisePcaBasis (normalisedBasis eigenvalues : Mat) : Mat :=
  ⟨normalisedBasis.rows, normalisedBasis.cols, fun r c =>
    normalisedBasis.entry r c * eigenvalues.recipSqrtFirstRows.atIdx c⟩

/-- The `PcaModel` class state: the random engine (`std::mt19937`, modelled
abstractly as a `Nat` state), the mean column vector, both PCA bases, the
eigenvalue column vector, and the triangle list. -/
structure PcaModel where
  engine : Nat
  mean : Mat
  normalisedPcaBasis : Mat
  unnormalisedPcaBasis : Mat
  eigenvalues : Mat
  triangleList : List (Int × Int × Int)

/-- The `PcaModel` constructor: stores mean, normalised basis, eigenvalues
and triangle list, seeds the engine (from `std::random_device`, modelled as
an arbitrary `seed` input), and derives the unnormalised basis via
`unnormalisePcaBasis`. -/
def PcaModel.construct (mean pcaBasis eigenvalues : Mat)
    (triangleList : List (Int × Int × Int)) (seed : Nat) : PcaModel :=
  { engine := seed
    mean := mean
    normalisedPcaBasis := pcaBasis
    unnormalisedPcaBasis := unnormalisePcaBasis pcaBasis eigenvalues
    eigenvalues := eigenvalues
    triangleList := triangleList }

/-- `getNumberOfPrincipalComponents()`: column count of the normalised basis. -/
def PcaModel.getNumberOfPrincipalComponents (model : PcaModel) : Nat :=
  model.normalisedPcaBasis.cols

/-- `getDataDimension()`: row count of the normalised basis. -/
def PcaModel.getDataDimension (model : PcaModel) : Nat :=
  model.normalisedPcaBasis.rows

/-- `getTriangleList()`. -/
def PcaModel.getTriangleList (model : PcaModel) : List (Int × Int × Int) :=
  model.triangleList

/-- `getMean()`. -/
def PcaModel.getMean (model : PcaModel) : Mat := model.mean

/-- `getMeanAtPoint(vertexIndex)`: multiplies the index by 3, throws
`std::out_of_range` when it reaches `mean.rows` (modelled as `Except.error`),
otherwise returns the homogeneous point of the three mean entries. -/
def PcaModel.getMeanAtPoint (model : PcaModel) (vertexIndex : Nat) :
    Except String (ℝ × ℝ × ℝ × ℝ) :=
  let i := vertexIndex * 3
  if i ≥ model.mean.rows then
    Except.error "The given vertex id is larger than the dimension of the mean."
  else
    Except.ok (model.mean.atIdx i, model.mean.atIdx (i + 1), model.mean.atIdx (i + 2), 1)

/-- Coefficient-based `drawSample(std::vector<float> coefficients)`: pads the
coefficient vector with zeros up to `n` when it is shorter, builds the `k×1`
matrix `alphas`, and returns `mean + normalisedPcaBasis * alphas`.  The
method is non-`const` in C++ but touches no member, so the returned model
state is unchanged; the matrix product/sum is `none` on dimension mismatch. -/
def PcaModel.drawSampleCoeffs (model : PcaModel) (coefficients : List ℝ) :
    Option Mat × PcaModel :=
  let n := model.getNumberOfPrincipalComponents
  let padded :=
    if coefficients.length < n then
      coefficients ++ List.replicate (n - coefficients.length) 0
    else coefficients
  let alphas := listToColMat padded
  ((model.normalisedPcaBasis.mul alphas).bind (fun p => model.mean.add p), model)

/-- Drawing `n` normal variates from the engine, one per principal component:
`dist` is the model of `std::normal_distribution::operator()(engine)`, taking
the engine state to a drawn value and the advanced engine state. -/
def drawAlphas (dist : Nat → ℝ × Nat) : Nat → Nat → List ℝ × Nat
  | 0, e => ([], e)
  | Nat.succ k, e =>
    let (a, e2) := dist e
    let (rest, e3) := drawAlphas dist k e2
    (a :: rest, e3)

/-- Sigma-based `drawSample(float sigma)`: draws `n` coefficients from a
normal distribution (modelled by the abstract sampler `dist`, parametrised
by `sigma`) using and advancing the internal engine, then delegates to the
coefficient-based overload. -/
def PcaModel.drawSampleSigma (model : PcaModel) (dist : ℝ → Nat → ℝ × Nat)
    (sigma : ℝ) : Option Mat × PcaModel :=
  let res := drawAlphas (dist sigma) model.getNumberOfPrincipalComponents model.engine
  let model2 := { model with engine := res.2 }
  model2.drawSampleCoeffs res.1

/-- `getNormalisedPcaBasis()`: a clone of the normalised basis. -/
def PcaModel.getNormalisedPcaBasis (model : PcaModel) : Mat :=
  model.normalisedPcaBasis.clone

/-- `getNormalisedPcaBasis(vertexId)`: rows `[3·vertexId, 3·vertexId + 3)`
of the normalised basis. -/
def PcaModel.getNormalisedPcaBasisAt (model : PcaModel) (vertexId : Nat) : Mat :=
  model.normalisedPcaBasis.rowRange (vertexId * 3) (vertexId * 3 + 3)

/-- `getUnnormalisedPcaBasis()`: a clone of the unnormalised basis. -/
def PcaModel.getUnnormalisedPcaBasis (model : PcaModel) : Mat :=
  model.unnormalisedPcaBasis.clone

/-- `getUnnormalisedPcaBasis(vertexId)`: rows `[3·vertexId, 3·vertexId + 3)`
of the unnormalised basis. -/
def PcaModel.getUnnormalisedPcaBasisAt (model : PcaModel) (vertexId : Nat) : Mat :=
  model.unnormalisedPcaBasis.rowRange (vertexId * 3) (vertexId * 3 + 3)

/-- `getEigenvalue(index)`: `eigenvalues.at<float>(index)`. -/
def PcaModel.getEigenvalue (model : PcaModel) (index : Nat) : ℝ :=
  model.eigenvalues.atIdx index

/-- Concrete example data, following the spec's example scenario: a model
with two vertices, mean `(0,0,0,1,1,1)ᵀ`. -/
def exMean : Mat := ⟨6, 1, fun r _ => if 3 ≤ r then 1 else 0⟩

/-- Concrete example normalised basis `(1,0,0,0,0,1)ᵀ` (shape 6×1, n = 1). -/
def exBasis : Mat := ⟨6, 1, fun r _ => if r = 0 ∨ r = 5 then 1 else 0⟩

/-- Concrete example eigenvalue column vector `(4.0)` (shape 1×1). -/
def exEig : Mat := ⟨1, 1, fun _ _ => 4⟩

/-- Concrete example model built from the example data. -/
def exModel : PcaModel := PcaModel.construct exMean exBasis exEig [] 0

/-- Concrete 3×2 basis used to exercise the row-vector eigenvalue shape. -/
def exBasis2 : Mat := ⟨3, 2, fun r c => (r : ℝ) + (c : ℝ)⟩

/-- Concrete 1×2 row-vector eigenvalue matrix `(4 9)`. -/
def exEigRow : Mat := ⟨1, 2, fun _ c => if c = 0 then 4 else 9⟩

end

end Eos

namespace Eos

/-! Helper lemmas about the square-root clones for eigenvalue vectors. -/

/-- For a column vector `E` (`cols = 1`) and an in-range flattened index `c`,
the square-rooted clone reads back `sqrt (E.entry c 0)`. -/
theorem Mat.sqrtFirstRows_atIdx_colvec (E : Mat) (hc : E.cols = 1) (c : Nat)
    (hcn : c < E.rows) : E.sqrtFirstRows.atIdx c = Real.sqrt (E.entry c 0) := by
  simp [Mat.sqrtFirstRows, Mat.atIdx, hc, hcn, Nat.mod_one]

/-- For a column vector `E` (`cols = 1`) and an in-range flattened index `c`,
the reciprocal-square-rooted clone reads back `1 / sqrt (E.entry c 0)`. -/
theorem Mat.recipSqrtFirstRows_atIdx_colvec (E : Mat) (hc : E.cols = 1) (c : Nat)
    (hcn : c < E.rows) : E.recipSqrtFirstRows.atIdx c = 1 / Real.sqrt (E.entry c 0) := by
  simp [Mat.recipSqrtFirstRows, Mat.atIdx, hc, hcn, Nat.mod_one]

/-- C1: for every basis matrix `B` of shape `3m×n` and eigenvalue column
vector `E` of length `n` with strictly positive entries,
`unnormalisePcaBasis (normalisePcaBasis B E) E` equals `B` (exactly, in the
real-number semantics standing for "within floating-point tolerance"), and
symmetrically `normalisePcaBasis (unnormalisePcaBasis B E) E` equals `B`. -/
theorem normalise_unnormalise_roundtrip (B E : Mat) (m n : Nat)
    (_hBrows : B.rows = 3 * m) (hBcols : B.cols = n)
    (hErows : E.rows = n) (hEcols : E.cols = 1)
    (hpos : ∀ i < n, 0 < E.entry i 0) :
    Mat.EqOn (unnormalisePcaBasis (normalisePcaBasis B E) E) B ∧
    Mat.EqOn (normalisePcaBasis (unnormalisePcaBasis B E) E) B := by
  have sqrtNe : ∀ c < n, Real.sqrt (E.entry c 0) ≠ 0 := fun c hcn =>
    ne_of_gt (Real.sqrt_pos.mpr (hpos c hcn))
  constructor
  · refine ⟨rfl, rfl, ?_⟩
    intro r hr c hcB
    have hcn : c < n := by simpa [unnormalisePcaBasis, normalisePcaBasis, hBcols] using hcB
    have hcE : c < E.rows := hErows ▸ hcn
    simp only [unnormalisePcaBasis, normalisePcaBasis,
      Mat.sqrtFirstRows_atIdx_colvec E hEcols c hcE,
      Mat.recipSqrtFirstRows_atIdx_colvec E hEcols c hcE]
    field_simp
    exact mul_div_cancel_right₀ _ (sqrtNe c hcn)
  · refine ⟨rfl, rfl, ?_⟩
    intro r hr c hcB
    have hcn : c < n := by simpa [unnormalisePcaBasis, normalisePcaBasis, hBcols] using hcB
    have hcE : c < E.rows := hErows ▸ hcn
    simp only [unnormalisePcaBasis, normalisePcaBasis,
      Mat.sqrtFirstRows_atIdx_colvec E hEcols c hcE,
      Mat.recipSqrtFirstRows_atIdx_colvec E hEcols c hcE]
    field_simp
    exact mul_div_cancel_right₀ _ (sqrtNe c hcn)

/-- Witness for C1 at the concrete example basis and eigenvalues. -/
theorem normalise_unnormalise_roundtrip_witness :
    (∀ i < 1, 0 < exEig.entry i 0) ∧
    (Mat.EqOn (unnormalisePcaBasis (normalisePcaBasis exBasis exEig) exEig) exBasis ∧
     Mat.EqOn (normalisePcaBasis (unnormalisePcaBasis exBasis exEig) exEig) exBasis) :=
  ⟨fun i _ => by norm_num [exEig],
   normalise_unnormalise_roundtrip exBasis exEig 2 1 (by norm_num [exBasis])
     (by norm_num [exBasis]) (by norm_num [exEig]) (by norm_num [exEig])
     (fun i _ => by norm_num [exEig])⟩

/-- Appending a zero pad never changes a `getD`-with-default-0 read. -/
theorem getD_append_replicate_zero (cs : List ℝ) (k j : Nat) :
    (cs ++ List.replicate k (0 : ℝ)).getD j 0 = cs.getD j 0 := by
  rcases Nat.lt_or_ge j cs.length with h | h
  · exact List.getD_append _ _ _ _ h
  · rw [List.getD_append_right _ _ _ _ h, List.getD_eq_default _ _ h]
    rcases Nat.lt_or_ge (j - cs.length) k with h2 | h2
    · rw [List.getD_eq_getElem _ _ (by simpa using h2), List.getElem_replicate]
    · exact List.getD_eq_default _ _ (by simpa using h2)

/-- Evaluation of the matrix product when the inner dimensions agree. -/
theorem Mat.mul_eq_of (A B : Mat) (h : A.cols = B.rows) :
    A.mul B = some ⟨A.rows, B.cols, fun r c =>
      ∑ k ∈ Finset.range A.cols, A.entry r k * B.entry k c⟩ := by
  simp [Mat.mul, h]

/-- The matrix product is the error value on mismatched inner dimensions. -/
theorem Mat.mul_eq_none (A B : Mat) (h : A.cols ≠ B.rows) : A.mul B = none := by
  simp [Mat.mul, h]

/-- Evaluation of the matrix sum when the shapes agree. -/
theorem Mat.add_eq_of (A B : Mat) (h1 : A.rows = B.rows) (h2 : A.cols = B.cols) :
    A.add B = some ⟨A.rows, A.cols, fun r c => A.entry r c + B.entry r c⟩ := by
  simp [Mat.add, h1, h2]

/-- Master lemma for the coefficient-based `drawSample`: when the coefficient
list has length at most `n` and the model's mean is a column vector with as
many rows as the basis, the call succeeds and the sample's entry in row `r`
is `mean[r] + ∑_j basis[r,j] · coefficients[j]` (missing coefficients read
as 0, exactly the zero-padding). -/
theorem drawSampleCoeffs_eq (model : PcaModel) (cs : List ℝ)
    (hlen : cs.length ≤ model.getNumberOfPrincipalComponents)
    (hrows : model.mean.rows = model.normalisedPcaBasis.rows)
    (hcols : model.mean.cols = 1) :
    (model.drawSampleCoeffs cs).1 =
      some ⟨model.mean.rows, model.mean.cols, fun r c =>
        model.mean.entry r c +
          ∑ j ∈ Finset.range model.normalisedPcaBasis.cols,
            model.normalisedPcaBasis.entry r j * cs.getD j 0⟩ := by
  set P : List ℝ :=
    if cs.length < model.getNumberOfPrincipalComponents then
      cs ++ List.replicate (model.getNumberOfPrincipalComponents - cs.length) 0
    else cs with hPdef
  have hplen : P.length = model.getNumberOfPrincipalComponents := by
    rw [hPdef]; split
    · simp only [List.length_append, List.length_replicate]; omega
    · omega
  have hpad : ∀ j, P.getD j 0 = cs.getD j 0 := by
    intro j; rw [hPdef]; split
    · exact getD_append_replicate_zero cs _ j
    · rfl
  have hstep : (model.drawSampleCoeffs cs).1 =
      (model.normalisedPcaBasis.mul (listToColMat P)).bind
        (fun p => model.mean.add p) := rfl
  rw [hstep, Mat.mul_eq_of _ _ (by simpa [listToColMat] using hplen.symm),
    Option.some_bind, Mat.add_eq_of _ _ (by exact hrows) (by exact hcols)]
  refine congrArg some (Mat.ext rfl rfl ?_)
  funext r c
  simp only [listToColMat]
  exact congrArg (model.mean.entry r c + ·)
    (Finset.sum_congr rfl fun j _ => congrArg _ (hpad j))

/-- C2: for a coefficient vector of length `k ≤ n`, the coefficient-based
`drawSample` returns `mean + normalisedBasis · alphas` with `alphas` the
input zero-padded to length `n`; in particular, on a model with `n = 3`
components, `drawSample [a]` returns the same vector as `drawSample [a,0,0]`. -/
theorem drawSample_coefficients_spec (model : PcaModel) (cs : List ℝ) (a : ℝ)
    (hlen : cs.length ≤ model.getNumberOfPrincipalComponents)
    (hrows : model.mean.rows = model.normalisedPcaBasis.rows)
    (hcols : model.mean.cols = 1) :
    (∃ M, (model.drawSampleCoeffs cs).1 = some M ∧
      M.rows = model.mean.rows ∧ M.cols = model.mean.cols ∧
      ∀ r c, M.entry r c = model.mean.entry r c +
        ∑ j ∈ Finset.range model.getNumberOfPrincipalComponents,
          model.normalisedPcaBasis.entry r j *
            (cs ++ List.replicate (model.getNumberOfPrincipalComponents - cs.length) 0).getD j 0) ∧
    (model.getNumberOfPrincipalComponents = 3 →
      (model.drawSampleCoeffs [a]).1 = (model.drawSampleCoeffs [a, 0, 0]).1) := by
  constructor
  · refine ⟨_, drawSampleCoeffs_eq model cs hlen hrows hcols, rfl, rfl, ?_⟩
    intro r c
    simp only []
    exact congrArg (model.mean.entry r c + ·)
      (Finset.sum_congr rfl fun j _ =>
        congrArg _ (getD_append_replicate_zero cs _ j).symm)
  · intro h3
    rw [drawSampleCoeffs_eq model [a] (by simp [h3]) hrows hcols,
      drawSampleCoeffs_eq model [a, 0, 0] (by simp [h3]) hrows hcols]
    refine congrArg some (Mat.ext rfl rfl ?_)
    funext r c
    simp only []
    refine congrArg (model.mean.entry r c + ·) (Finset.sum_congr rfl fun j hj => ?_)
    have hj3 : j < 3 := by
      simp only [PcaModel.getNumberOfPrincipalComponents] at h3
      rw [h3] at hj
      exact Finset.mem_range.mp hj
    interval_cases j <;> simp [List.getD]

/-- Witness for C2 at the concrete example model (n = 1) with `cs = [2]`. -/
theorem drawSample_coefficients_spec_witness :
    ([(2 : ℝ)].length ≤ exModel.getNumberOfPrincipalComponents ∧
      exModel.mean.rows = exModel.normalisedPcaBasis.rows ∧ exModel.mean.cols = 1) ∧
    (∃ M, (exModel.drawSampleCoeffs [(2 : ℝ)]).1 = some M ∧
      M.rows = exModel.mean.rows ∧ M.cols = exModel.mean.cols ∧
      ∀ r c, M.entry r c = exModel.mean.entry r c +
        ∑ j ∈ Finset.range exModel.getNumberOfPrincipalComponents,
          exModel.normalisedPcaBasis.entry r j *
            ([(2 : ℝ)] ++ List.replicate (exModel.getNumberOfPrincipalComponents - [(2 : ℝ)].length) 0).getD j 0) :=
  ⟨⟨by decide, rfl, rfl⟩,
   (drawSample_coefficients_spec exModel [(2 : ℝ)] 2 (by decide) rfl rfl).1⟩

/-- C6: with an empty coefficient vector, or any all-zero coefficient vector
of length at most `n`, the coefficient-based `drawSample` returns exactly
the mean vector. -/
theorem drawSample_zero_coefficients (model : PcaModel) (cs : List ℝ)
    (hlen : cs.length ≤ model.getNumberOfPrincipalComponents)
    (hzero : ∀ x ∈ cs, x = 0)
    (hrows : model.mean.rows = model.normalisedPcaBasis.rows)
    (hcols : model.mean.cols = 1) :
    (model.drawSampleCoeffs []).1 = some model.mean ∧
    (model.drawSampleCoeffs cs).1 = some model.mean := by
  have main : ∀ l : List ℝ, l.length ≤ model.getNumberOfPrincipalComponents →
      (∀ x ∈ l, x = 0) → (model.drawSampleCoeffs l).1 = some model.mean := by
    intro l hl hz
    rw [drawSampleCoeffs_eq model l hl hrows hcols]
    have hz' : ∀ j, l.getD j 0 = 0 := by
      intro j
      rcases Nat.lt_or_ge j l.length with h | h
      · rw [List.getD_eq_getElem _ _ h]
        exact hz _ (List.getElem_mem h)
      · exact List.getD_eq_default _ _ h
    refine congrArg some (Mat.ext rfl rfl ?_)
    funext r c
    have hterm : ∀ j ∈ Finset.range model.normalisedPcaBasis.cols,
        model.normalisedPcaBasis.entry r j * l.getD j 0 = 0 := fun j _ => by
      rw [hz' j, mul_zero]
    show model.mean.entry r c +
        ∑ j ∈ Finset.range model.normalisedPcaBasis.cols,
          model.normalisedPcaBasis.entry r j * l.getD j 0 = model.mean.entry r c
    rw [Finset.sum_congr rfl hterm, Finset.sum_const_zero, add_zero]
  exact ⟨main [] (Nat.zero_le _) (by simp), main cs hlen hzero⟩

/-- Witness for C6 at the concrete example model with `cs = [0]`. -/
theorem drawSample_zero_coefficients_witness :
    ([(0 : ℝ)].length ≤ exModel.getNumberOfPrincipalComponents ∧
      (∀ x ∈ [(0 : ℝ)], x = 0) ∧
      exModel.mean.rows = exModel.normalisedPcaBasis.rows ∧ exModel.mean.cols = 1) ∧
    ((exModel.drawSampleCoeffs []).1 = some exModel.mean ∧
     (exModel.drawSampleCoeffs [(0 : ℝ)]).1 = some exModel.mean) :=
  ⟨⟨by decide, by simp, rfl, rfl⟩,
   drawSample_zero_coefficients exModel [(0 : ℝ)] (by decide) (by simp) rfl rfl⟩

/-- C7: the coefficient-based `drawSample` is a pure function of the stored
mean and normalised basis and the coefficient list — two models agreeing on
those fields (whatever their engine states and other fields) produce the
same output — and the call leaves the model state, in particular the random
engine, unchanged. -/
theorem drawSample_coefficients_deterministic (m1 m2 : PcaModel) (cs : List ℝ)
    (hmean : m1.mean = m2.mean)
    (hbasis : m1.normalisedPcaBasis = m2.normalisedPcaBasis) :
    (m1.drawSampleCoeffs cs).1 = (m2.drawSampleCoeffs cs).1 ∧
    (m1.drawSampleCoeffs cs).2 = m1 ∧ (m2.drawSampleCoeffs cs).2 = m2 := by
  refine ⟨?_, rfl, rfl⟩
  simp only [PcaModel.drawSampleCoeffs, PcaModel.getNumberOfPrincipalComponents,
    hmean, hbasis]

/-- Witness for C7: two example models differing only in their engine state. -/
theorem drawSample_coefficients_deterministic_witness :
    ((PcaModel.construct exMean exBasis exEig [] 0).mean =
        (PcaModel.construct exMean exBasis exEig [] 37).mean ∧
      (PcaModel.construct exMean exBasis exEig [] 0).normalisedPcaBasis =
        (PcaModel.construct exMean exBasis exEig [] 37).normalisedPcaBasis) ∧
    (((PcaModel.construct exMean exBasis exEig [] 0).drawSampleCoeffs [(1 : ℝ)]).1 =
      ((PcaModel.construct exMean exBasis exEig [] 37).drawSampleCoeffs [(1 : ℝ)]).1 ∧
     ((PcaModel.construct exMean exBasis exEig [] 0).drawSampleCoeffs [(1 : ℝ)]).2 =
        PcaModel.construct exMean exBasis exEig [] 0 ∧
     ((PcaModel.construct exMean exBasis exEig [] 37).drawSampleCoeffs [(1 : ℝ)]).2 =
        PcaModel.construct exMean exBasis exEig [] 37) :=
  ⟨⟨rfl, rfl⟩,
   drawSample_coefficients_deterministic
     (PcaModel.construct exMean exBasis exEig [] 0)
     (PcaModel.construct exMean exBasis exEig [] 37) [(1 : ℝ)] rfl rfl⟩

/-- Counterexample to C8 as stated: it is not true that the coefficient-based
`drawSample` returns a vector whenever the coefficient list is longer than
`n` — on the example model (n = 1) with coefficients `[1, 2]`, the matrix
product's dimension precondition fails and the call raises the
dimensional-mismatch error (`none` in the embedding). -/
theorem drawSample_long_input_counterexample :
    ¬ (∀ (model : PcaModel) (cs : List ℝ),
        model.getNumberOfPrincipalComponents < cs.length →
        ∃ M, (model.drawSampleCoeffs cs).1 = some M) := by
  intro h
  obtain ⟨M, hM⟩ := h exModel [1, 2] (by decide)
  rw [show (exModel.drawSampleCoeffs [1, 2]).1 = none from rfl] at hM
  cases hM

/-- C8 amended: for every coefficient vector strictly longer than `n`, the
coefficient-based `drawSample` does not return a sample — the matrix
product `normalisedPcaBasis * alphas` has mismatched inner dimensions and
OpenCV raises a dimensional-mismatch error (`none` in the embedding). -/
theorem drawSample_long_input_raises (model : PcaModel) (cs : List ℝ)
    (hlen : model.getNumberOfPrincipalComponents < cs.length) :
    (model.drawSampleCoeffs cs).1 = none := by
  simp only [PcaModel.getNumberOfPrincipalComponents] at hlen
  simp only [PcaModel.drawSampleCoeffs, PcaModel.getNumberOfPrincipalComponents]
  rw [if_neg (by omega)]
  simp only [Mat.mul, listToColMat]
  rw [if_neg (by simpa using Nat.ne_of_lt hlen)]
  rfl

/-- Witness for C8's amended claim at the example model with `cs = [1, 2]`. -/
theorem drawSample_long_input_raises_witness :
    exModel.getNumberOfPrincipalComponents < ([(1 : ℝ), 2].length) ∧
    (exModel.drawSampleCoeffs [(1 : ℝ), 2]).1 = none :=
  ⟨by decide, drawSample_long_input_raises exModel [(1 : ℝ), 2] (by decide)⟩

/-- C3: after construction from (mean, normalised basis, eigenvalues,
triangle list) with a strictly positive eigenvalue column vector, the stored
unnormalised basis is the normalised basis scaled column-wise by
`1/sqrt(eigenvalue[j])`, and the state-passing public operations (the two
sampling overloads; every other accessor is a pure read) leave both stored
bases unchanged, so the relationship holds over the object lifetime. -/
theorem construct_basis_consistency (mean basis eig : Mat)
    (tl : List (Int × Int × Int)) (seed : Nat)
    (hErows : eig.rows = basis.cols) (hEcols : eig.cols = 1)
    (_hpos : ∀ i < eig.rows, 0 < eig.entry i 0) :
    ((PcaModel.construct mean basis eig tl seed).normalisedPcaBasis = basis) ∧
    ((PcaModel.construct mean basis eig tl seed).unnormalisedPcaBasis.rows = basis.rows ∧
     (PcaModel.construct mean basis eig tl seed).unnormalisedPcaBasis.cols = basis.cols ∧
     ∀ r < basis.rows, ∀ c < basis.cols,
       (PcaModel.construct mean basis eig tl seed).unnormalisedPcaBasis.entry r c =
         basis.entry r c * (1 / Real.sqrt (eig.entry c 0))) ∧
    (∀ cs : List ℝ,
      ((PcaModel.construct mean basis eig tl seed).drawSampleCoeffs cs).2.normalisedPcaBasis =
        (PcaModel.construct mean basis eig tl seed).normalisedPcaBasis ∧
      ((PcaModel.construct mean basis eig tl seed).drawSampleCoeffs cs).2.unnormalisedPcaBasis =
        (PcaModel.construct mean basis eig tl seed).unnormalisedPcaBasis) ∧
    (∀ (dist : ℝ → Nat → ℝ × Nat) (sigma : ℝ),
      ((PcaModel.construct mean basis eig tl seed).drawSampleSigma dist sigma).2.normalisedPcaBasis =
        (PcaModel.construct mean basis eig tl seed).normalisedPcaBasis ∧
      ((PcaModel.construct mean basis eig tl seed).drawSampleSigma dist sigma).2.unnormalisedPcaBasis =
        (PcaModel.construct mean basis eig tl seed).unnormalisedPcaBasis) := by
  refine ⟨rfl, ⟨rfl, rfl, ?_⟩, fun cs => ⟨rfl, rfl⟩, fun dist sigma => ⟨rfl, rfl⟩⟩
  intro r _hr c hc
  have hcE : c < eig.rows := hErows ▸ hc
  show basis.entry r c * eig.recipSqrtFirstRows.atIdx c = _
  rw [Mat.recipSqrtFirstRows_atIdx_colvec eig hEcols c hcE]

/-- Witness for C3 at the concrete example data. -/
theorem construct_basis_consistency_witness :
    (exEig.rows = exBasis.cols ∧ exEig.cols = 1 ∧ ∀ i < exEig.rows, 0 < exEig.entry i 0) ∧
    ((PcaModel.construct exMean exBasis exEig [] 5).normalisedPcaBasis = exBasis ∧
     ∀ r < exBasis.rows, ∀ c < exBasis.cols,
       (PcaModel.construct exMean exBasis exEig [] 5).unnormalisedPcaBasis.entry r c =
         exBasis.entry r c * (1 / Real.sqrt (exEig.entry c 0))) :=
  ⟨⟨rfl, rfl, fun i _ => by norm_num [exEig]⟩,
   ⟨(construct_basis_consistency exMean exBasis exEig [] 5 rfl rfl
       (fun i _ => by norm_num [exEig])).1,
    (construct_basis_consistency exMean exBasis exEig [] 5 rfl rfl
       (fun i _ => by norm_num [exEig])).2.1.2.2⟩⟩

/-- Evaluation of `getMeanAtPoint` in the out-of-range branch. -/
theorem getMeanAtPoint_err (model : PcaModel) (v : Nat)
    (h : v * 3 ≥ model.mean.rows) :
    model.getMeanAtPoint v =
      Except.error "The given vertex id is larger than the dimension of the mean." := by
  simp only [PcaModel.getMeanAtPoint]
  rw [if_pos h]

/-- Evaluation of `getMeanAtPoint` in the in-range branch. -/
theorem getMeanAtPoint_ok (model : PcaModel) (v : Nat)
    (h : v * 3 < model.mean.rows) :
    model.getMeanAtPoint v = Except.ok
      (model.mean.atIdx (v * 3), model.mean.atIdx (v * 3 + 1),
       model.mean.atIdx (v * 3 + 2), 1) := by
  simp only [PcaModel.getMeanAtPoint]
  rw [if_neg (by omega)]

/-- Element access on a column vector is access to column 0. -/
theorem Mat.atIdx_colvec (M : Mat) (hc : M.cols = 1) (i : Nat) :
    M.atIdx i = M.entry i 0 := by
  simp [Mat.atIdx, hc, Nat.mod_one]

/-- C4: for a model whose mean is a `3m×1` column vector (with the data
dimension equal to the mean's row count), `getMeanAtPoint v` raises the
out-of-range error exactly when `v*3 ≥ dataDimension()`; in particular
`v = vertexCount` fails and `v = vertexCount - 1` succeeds, and on success
the result is the homogeneous point `(mean[3v], mean[3v+1], mean[3v+2], 1)`. -/
theorem getMeanAtPoint_spec (model : PcaModel) (m : Nat)
    (hm : model.mean.rows = 3 * m)
    (hdim : model.getDataDimension = model.mean.rows)
    (hmc : model.mean.cols = 1) :
    (∀ v : Nat, (∃ e, model.getMeanAtPoint v = Except.error e) ↔
      v * 3 ≥ model.getDataDimension) ∧
    (∃ e, model.getMeanAtPoint m = Except.error e) ∧
    (0 < m → ∃ p, model.getMeanAtPoint (m - 1) = Except.ok p) ∧
    (∀ v : Nat, v * 3 < model.getDataDimension →
      model.getMeanAtPoint v = Except.ok
        (model.mean.entry (3 * v) 0, model.mean.entry (3 * v + 1) 0,
         model.mean.entry (3 * v + 2) 0, 1)) := by
  refine ⟨?_, ?_, ?_, ?_⟩
  · intro v
    constructor
    · rintro ⟨e, he⟩
      by_contra hcon
      rw [hdim] at hcon
      rw [getMeanAtPoint_ok model v (by omega)] at he
      exact Except.noConfusion he
    · intro h
      rw [hdim] at h
      exact ⟨_, getMeanAtPoint_err model v h⟩
  · exact ⟨_, getMeanAtPoint_err model m (by omega)⟩
  · intro hmpos
    exact ⟨_, getMeanAtPoint_ok model (m - 1) (by omega)⟩
  · intro v hv
    rw [hdim] at hv
    rw [getMeanAtPoint_ok model v hv]
    simp only [Mat.atIdx_colvec model.mean hmc, Nat.mul_comm v 3]

/-- Witness for C4 at the concrete example model (`m = 2` vertices). -/
theorem getMeanAtPoint_spec_witness :
    (exModel.mean.rows = 3 * 2 ∧ exModel.getDataDimension = exModel.mean.rows ∧
      exModel.mean.cols = 1) ∧
    ((∃ e, exModel.getMeanAtPoint 2 = Except.error e) ∧
     (0 < 2 → ∃ p, exModel.getMeanAtPoint (2 - 1) = Except.ok p)) :=
  ⟨⟨rfl, rfl, rfl⟩,
   ⟨(getMeanAtPoint_spec exModel 2 rfl rfl rfl).2.1,
    (getMeanAtPoint_spec exModel 2 rfl rfl rfl).2.2.1⟩⟩

/-- C5: for every valid vertex index `v`, the per-vertex basis accessors
(normalised and unnormalised) return exactly rows `[3v, 3v+3)` of the
corresponding full basis matrix — a `3×n` block. -/
theorem basisAtVertex_consistency (model : PcaModel) (v m : Nat)
    (_hrows : model.normalisedPcaBasis.rows = 3 * m) (_hv : v < m) :
    ((model.getNormalisedPcaBasisAt v).rows = 3 ∧
     (model.getNormalisedPcaBasisAt v).cols = model.getNormalisedPcaBasis.cols ∧
     ∀ r < 3, ∀ c, (model.getNormalisedPcaBasisAt v).entry r c =
       model.getNormalisedPcaBasis.entry (3 * v + r) c) ∧
    ((model.getUnnormalisedPcaBasisAt v).rows = 3 ∧
     (model.getUnnormalisedPcaBasisAt v).cols = model.getUnnormalisedPcaBasis.cols ∧
     ∀ r < 3, ∀ c, (model.getUnnormalisedPcaBasisAt v).entry r c =
       model.getUnnormalisedPcaBasis.entry (3 * v + r) c) := by
  constructor
  · refine ⟨by simp [PcaModel.getNormalisedPcaBasisAt, Mat.rowRange], rfl, ?_⟩
    intro r _hr c
    show model.normalisedPcaBasis.entry (v * 3 + r) c = _
    rw [Nat.mul_comm v 3]
    rfl
  · refine ⟨by simp [PcaModel.getUnnormalisedPcaBasisAt, Mat.rowRange], rfl, ?_⟩
    intro r _hr c
    show model.unnormalisedPcaBasis.entry (v * 3 + r) c = _
    rw [Nat.mul_comm v 3]
    rfl

/-- Witness for C5 at the concrete example model, vertex 1 of 2. -/
theorem basisAtVertex_consistency_witness :
    (exModel.normalisedPcaBasis.rows = 3 * 2 ∧ 1 < 2) ∧
    ((exModel.getNormalisedPcaBasisAt 1).rows = 3 ∧
     ∀ r < 3, ∀ c, (exModel.getNormalisedPcaBasisAt 1).entry r c =
       exModel.getNormalisedPcaBasis.entry (3 * 1 + r) c) :=
  ⟨⟨rfl, by decide⟩,
   ⟨(basisAtVertex_consistency exModel 1 2 rfl (by decide)).1.1,
    (basisAtVertex_consistency exModel 1 2 rfl (by decide)).1.2.2⟩⟩

/-- For a `1×n` row vector `E` and a flattened index `j ≥ 1`, the
square-rooted clone reads back the raw entry (only flattened indices below
`E.rows = 1` get square-rooted). -/
theorem Mat.sqrtFirstRows_atIdx_rowvec (E : Mat) (n : Nat) (hr : E.rows = 1)
    (hc : E.cols = n) (j : Nat) (h1 : 1 ≤ j) (hj : j < n) :
    E.sqrtFirstRows.atIdx j = E.entry 0 j := by
  have hn : 0 < n := by omega
  simp only [Mat.sqrtFirstRows, Mat.atIdx, hc, hr]
  rw [Nat.div_eq_of_lt hj, Nat.mod_eq_of_lt hj]
  rw [if_neg (by omega)]

/-- Row-vector analogue for the reciprocal-square-rooted clone. -/
theorem Mat.recipSqrtFirstRows_atIdx_rowvec (E : Mat) (n : Nat) (hr : E.rows = 1)
    (hc : E.cols = n) (j : Nat) (h1 : 1 ≤ j) (hj : j < n) :
    E.recipSqrtFirstRows.atIdx j = E.entry 0 j := by
  have hn : 0 < n := by omega
  simp only [Mat.recipSqrtFirstRows, Mat.atIdx, hc, hr]
  rw [Nat.div_eq_of_lt hj, Nat.mod_eq_of_lt hj]
  rw [if_neg (by omega)]

/-- C9: with a strictly positive `n×1` column-vector eigenvalue matrix, each
element of column `j` of `normalisePcaBasis` is the corresponding basis
element times `sqrt(E[j])` and of `unnormalisePcaBasis` times `1/sqrt(E[j])`;
the square-root loop only covers the first `E.rows` flattened entries, so
with a `1×n` row-vector eigenvalue matrix every column `j ≥ 1` is scaled by
the raw, un-square-rooted eigenvalue instead. -/
theorem normalisation_columnwise_scaling (B E Br Er : Mat) (n nr : Nat)
    (_hBcols : B.cols = n) (hErows : E.rows = n) (hEcols : E.cols = 1)
    (_hpos : ∀ i < n, 0 < E.entry i 0)
    (_hBrCols : Br.cols = nr) (hErRows : Er.rows = 1) (hErCols : Er.cols = nr) :
    (∀ r < B.rows, ∀ j < n,
      (normalisePcaBasis B E).entry r j = B.entry r j * Real.sqrt (E.entry j 0) ∧
      (unnormalisePcaBasis B E).entry r j = B.entry r j * (1 / Real.sqrt (E.entry j 0))) ∧
    (∀ r < Br.rows, ∀ j, 1 ≤ j → j < nr →
      (normalisePcaBasis Br Er).entry r j = Br.entry r j * Er.entry 0 j ∧
      (unnormalisePcaBasis Br Er).entry r j = Br.entry r j * Er.entry 0 j) := by
  constructor
  · intro r _hr j hj
    have hjE : j < E.rows := hErows ▸ hj
    constructor
    · show B.entry r j * E.sqrtFirstRows.atIdx j = _
      rw [Mat.sqrtFirstRows_atIdx_colvec E hEcols j hjE]
    · show B.entry r j * E.recipSqrtFirstRows.atIdx j = _
      rw [Mat.recipSqrtFirstRows_atIdx_colvec E hEcols j hjE]
  · intro r _hr j h1 hj
    constructor
    · show Br.entry r j * Er.sqrtFirstRows.atIdx j = _
      rw [Mat.sqrtFirstRows_atIdx_rowvec Er nr hErRows hErCols j h1 hj]
    · show Br.entry r j * Er.recipSqrtFirstRows.atIdx j = _
      rw [Mat.recipSqrtFirstRows_atIdx_rowvec Er nr hErRows hErCols j h1 hj]

/-- Witness for C9 at the example column-vector eigenvalues `(4)` (with
`exBasis`) and the example row-vector eigenvalues `(4 9)` (with `exBasis2`). -/
theorem normalisation_columnwise_scaling_witness :
    (exBasis.cols = 1 ∧ exEig.rows = 1 ∧ exEig.cols = 1 ∧
      (∀ i < 1, 0 < exEig.entry i 0) ∧
      exBasis2.cols = 2 ∧ exEigRow.rows = 1 ∧ exEigRow.cols = 2) ∧
    ((∀ r < exBasis.rows, ∀ j < 1,
       (normalisePcaBasis exBasis exEig).entry r j =
         exBasis.entry r j * Real.sqrt (exEig.entry j 0) ∧
       (unnormalisePcaBasis exBasis exEig).entry r j =
         exBasis.entry r j * (1 / Real.sqrt (exEig.entry j 0))) ∧
     (∀ r < exBasis2.rows, ∀ j, 1 ≤ j → j < 2 →
         (normalisePcaBasis exBasis2 exEigRow).entry r j =
           exBasis2.entry r j * exEigRow.entry 0 j ∧
         (unnormalisePcaBasis exBasis2 exEigRow).entry r j =
           exBasis2.entry r j * exEigRow.entry 0 j)) :=
  ⟨⟨rfl, rfl, rfl, fun i _ => by norm_num [exEig], rfl, rfl, rfl⟩,
   normalisation_columnwise_scaling exBasis exEig exBasis2 exEigRow 1 2
     rfl rfl rfl (fun i _ => by norm_num [exEig]) rfl rfl rfl⟩

/-- C10: for a model whose mean row count is a multiple of 3, whenever
`getMeanAtPoint v` does not raise the out-of-range error, all three accessed
flattened indices `3v`, `3v+1`, `3v+2` are strictly below the mean's row
count, although the check compares only `3v` against it. -/
theorem getMeanAtPoint_bounds_sufficient (model : PcaModel) (m v : Nat)
    (hm : model.mean.rows = 3 * m)
    (hnoerr : ∀ e, model.getMeanAtPoint v ≠ Except.error e) :
    v * 3 < model.mean.rows ∧ v * 3 + 1 < model.mean.rows ∧
      v * 3 + 2 < model.mean.rows := by
  have hlt : v * 3 < model.mean.rows := by
    by_contra hcon
    exact hnoerr _ (getMeanAtPoint_err model v (by omega))
  omega

/-- Witness for C10 at the concrete example model with `v = 1`. -/
theorem getMeanAtPoint_bounds_sufficient_witness :
    (exModel.mean.rows = 3 * 2 ∧
      (∀ e, exModel.getMeanAtPoint 1 ≠ Except.error e)) ∧
    (1 * 3 < exModel.mean.rows ∧ 1 * 3 + 1 < exModel.mean.rows ∧
      1 * 3 + 2 < exModel.mean.rows) := by
  have hok := getMeanAtPoint_ok exModel 1 (by decide)
  have hne : ∀ e, exModel.getMeanAtPoint 1 ≠ Except.error e := by
    intro e h
    rw [hok] at h
    exact Except.noConfusion h
  exact ⟨⟨rfl, hne⟩, getMeanAtPoint_bounds_sufficient exModel 2 1 rfl hne⟩

end Eos
